import Mathlib

/-!
# splitvterm: a shallow embedding of `src/bin/split-term.c`

The program splits one physical terminal into two stacked virtual terminals.
The embedding keeps the global variables of the C file in a `State` record,
passes it explicitly through every function, and records each call into the
outside world (libvterm, ncurses, the kernel) as a `Call` in a trace, in
program order.  Values that the outside world hands back (`getch`, `waitpid`,
`ioctl`, `poll`, `read`, `forkpty`, handles) are explicit arguments.

Integers: `int` fields are `Int` (no value in the program comes near
overflow), array indices are `Nat`, bytes are `Nat` reduced `% 256` at every
store into a `char` / `uint8_t`.
-/

namespace SplitTerm

/-! ## Constants -/

/-- `#define MAX_TERMINALS 2`. -/
def MAX_TERMINALS : Nat := 2

/-- `#define UTF8_MAX_LENGTH 6`. -/
def UTF8_MAX_LENGTH : Nat := 6

/-- The ncurses `ERR` value returned by `getch` when no input is pending. -/
def ERR : Int := -1

/-! ## Data model -/

/-- The `Terminal` struct.  Pointers (`vt`, `vts`, `win`) are opaque handles. -/
structure Terminal where
  vt : Nat
  vts : Nat
  child_pid : Int
  pty_fd : Int
  win : Nat
  active : Int
  row_count : Int
  col_count : Int
  start_row : Int
deriving DecidableEq, Repr

/-- The array `Terminal terminals[MAX_TERMINALS]`, two slots. -/
structure Terminals where
  t0 : Terminal
  t1 : Terminal
deriving DecidableEq, Repr

/-- Read of `terminals[i]`. -/
def Terminals.get (ts : Terminals) (i : Nat) : Terminal :=
  if i = 0 then ts.t0 else ts.t1

/-- Store into `terminals[i]`; an index outside the array stores nothing. -/
def Terminals.set (ts : Terminals) (i : Nat) (t : Terminal) : Terminals :=
  if i = 0 then { ts with t0 := t }
  else if i = 1 then { ts with t1 := t }
  else ts

/-- The global variables of the program. -/
structure State where
  terminals : Terminals
  active_terminal : Nat
  ignore_next_ctrl_a : Int
  should_exit : Int
  log_file : Int
deriving DecidableEq, Repr

/-- One call from the program into the outside world. -/
inductive Call where
  -- The system call `write(fd, bytes, len)`.
  | write (fd : Int) (bytes : List Nat)
  -- The libvterm call `vterm_input_write(vt, bytes, len)`.
  | vterm_input_write (vt : Nat) (bytes : List Nat)
  -- The libvterm call `vterm_set_size(vt, rows, cols)`.
  | vterm_set_size (vt : Nat) (rows cols : Int)
  -- The libvterm call `vterm_new(rows, cols)`, returning handle `vt`.
  | vterm_new (vt : Nat) (rows cols : Int)
  -- The libvterm call `vterm_screen_reset(vts, 1)`.
  | vterm_screen_reset (vts : Nat)
  -- `ioctl(fd, TIOCSWINSZ, &ws)`.
  | set_winsize (fd : Int) (rows cols : Nat)
  -- `forkpty` with the initial window size.
  | forkpty (rows cols : Nat)
  -- `fcntl(fd, F_SETFL, flags | O_NONBLOCK)`.
  | set_nonblock (fd : Int)
  -- `newwin(rows, cols, start_row, 0)`, returning handle `win`.
  | newwin (win : Nat) (rows cols start_row : Int)
  -- `resizeterm(rows, cols)`.
  | resizeterm (rows cols : Nat)
  -- `wresize(win, rows, cols)`.
  | wresize (win : Nat) (rows cols : Int)
  -- `mvwin(win, row, 0)`.
  | mvwin (win : Nat) (row : Int)
  -- `mvwprintw(win, row, col, text)`.
  | mvwprintw (win : Nat) (row col : Int) (text : String)
  -- `wmove(win, row, col)`.
  | wmove (win : Nat) (row col : Int)
  -- `wattron(win, attr)` / `wattroff(win, attr)`.
  | wattr (win : Nat) (enable : Bool) (attr : String)
  -- `waddstr(win, bytes)`, the bytes of the C string.
  | waddstr (win : Nat) (bytes : List Nat)
  -- `waddch(win, ch)`.
  | waddch (win : Nat) (ch : Nat)
  -- `wrefresh(win)`.
  | wrefresh (win : Nat)
  -- `mvhline(row, 0, ACS_HLINE, n)`.
  | mvhline (row : Int) (n : Nat)
  -- `clearok(curscr, TRUE)`.
  | clearok
  -- `refresh()`.
  | refresh
  -- `printf` / `perror` diagnostics.
  | message (text : String)
  -- `usleep(usec)`.
  | usleep (usec : Nat)
deriving DecidableEq, Repr

/-! ## `screen_damage`: the byte string built for one cell -/

/-- A store into a `char`: the value modulo 256. -/
def to_char (v : Nat) : Nat := v % 256

/-- The array `buffer[UTF8_MAX_LENGTH + 1]` after the encoding branch of
`screen_damage` has run on code point `c`; it starts all zero. -/
def utf8_buffer (c : Nat) : List Nat :=
  if c < 0x80 then
    [to_char c, 0, 0, 0, 0, 0, 0]
  else if c < 0x800 then
    [to_char (0xC0 ||| (c >>> 6)), to_char (0x80 ||| (c &&& 0x3F)), 0, 0, 0, 0, 0]
  else if c < 0x10000 then
    [to_char (0xE0 ||| (c >>> 12)), to_char (0x80 ||| ((c >>> 6) &&& 0x3F)),
     to_char (0x80 ||| (c &&& 0x3F)), 0, 0, 0, 0]
  else if c < 0x110000 then
    [to_char (0xF0 ||| (c >>> 18)), to_char (0x80 ||| ((c >>> 12) &&& 0x3F)),
     to_char (0x80 ||| ((c >>> 6) &&& 0x3F)), to_char (0x80 ||| (c &&& 0x3F)), 0, 0, 0]
  else
    [63, 0, 0, 0, 0, 0, 0]

/-- The C string held in a `char` array: the bytes before the first NUL. -/
def c_string (buffer : List Nat) : List Nat :=
  buffer.takeWhile (fun b => b != 0)

/-- The string handed to `waddstr` for a cell whose first code point is `c`. -/
def cell_string (c : Nat) : List Nat := c_string (utf8_buffer c)

/-- The fields of `VTermScreenCell` that `screen_damage` reads. -/
structure VTermScreenCell where
  chars0 : Nat
  bold : Bool
  underline : Bool
  reverse : Bool
deriving DecidableEq, Repr

/-- The body of the inner loop of `screen_damage` for one cell. -/
def screen_damage_cell (win : Nat) (cell : VTermScreenCell) : List Call :=
  (if cell.bold then [Call.wattr win true "A_BOLD"] else []) ++
  (if cell.underline then [Call.wattr win true "A_UNDERLINE"] else []) ++
  (if cell.reverse then [Call.wattr win true "A_REVERSE"] else []) ++
  (if cell.chars0 ≠ 0 then [Call.waddstr win (cell_string cell.chars0)]
   else [Call.waddch win 32]) ++
  (if cell.bold then [Call.wattr win false "A_BOLD"] else []) ++
  (if cell.underline then [Call.wattr win false "A_UNDERLINE"] else []) ++
  (if cell.reverse then [Call.wattr win false "A_REVERSE"] else [])

/-- UTF-8 decoding by bit layout, written from the encoding's definition
(not from the program): lead byte `0xxxxxxx`, `110xxxxx`, `1110xxxx` or
`11110xxx`, continuation bytes `10xxxxxx`, payload bits concatenated. -/
def utf8_decode : List Nat → Option Nat
  | [b0] => if b0 / 128 = 0 then some b0 else none
  | [b0, b1] =>
    if b0 / 32 = 6 ∧ b1 / 64 = 2 then some ((b0 % 32) * 64 + b1 % 64) else none
  | [b0, b1, b2] =>
    if b0 / 16 = 14 ∧ b1 / 64 = 2 ∧ b2 / 64 = 2 then
      some ((b0 % 16) * 4096 + (b1 % 64) * 64 + b2 % 64)
    else none
  | [b0, b1, b2, b3] =>
    if b0 / 8 = 30 ∧ b1 / 64 = 2 ∧ b2 / 64 = 2 ∧ b3 / 64 = 2 then
      some ((b0 % 8) * 262144 + (b1 % 64) * 4096 + (b2 % 64) * 64 + b3 % 64)
    else none
  | _ => none

/-- Number of bytes UTF-8 uses for code point `c`. -/
def utf8_length (c : Nat) : Nat :=
  if c < 0x80 then 1 else if c < 0x800 then 2 else if c < 0x10000 then 3 else 4

/-! ## Focus switching -/

/-- The two calls that redraw one terminal's focus indicator in the loop of
`toggle_active_terminal`. -/
def indicator_calls (t : Terminal) : List Call :=
  [ (if t.active ≠ 0 then Call.mvwprintw t.win 0 (t.col_count - 8) "[ACTIVE]"
     else Call.mvwprintw t.win 0 (t.col_count - 8) "        "),
    Call.wrefresh t.win ]

/-- `toggle_active_terminal`: clear the flag of the active terminal, advance
the index modulo `MAX_TERMINALS`, set the flag of the new one, redraw both
indicators, set `ignore_next_ctrl_a`. -/
def toggle_active_terminal (s : State) : State × List Call :=
  let ts1 := s.terminals.set s.active_terminal
    { s.terminals.get s.active_terminal with active := 0 }
  let a := (s.active_terminal + 1) % MAX_TERMINALS
  let ts2 := ts1.set a { ts1.get a with active := 1 }
  let calls := (List.range MAX_TERMINALS).flatMap (fun i => indicator_calls (ts2.get i))
  ({ s with terminals := ts2, active_terminal := a, ignore_next_ctrl_a := 1 }, calls)

/-! ## Keyboard input -/

/-- One `getch()` on a non-blocking keyboard.  `kbd` lists what the coming
reads return, `ERR` standing for a read that finds nothing; after the list
every read finds nothing. -/
def getch (kbd : List Int) : Int × List Int :=
  match kbd with
  | [] => (ERR, [])
  | k :: rest => (k, rest)

/-- Conversion `(uint8_t)ch` / store of an `int` into a `char`. -/
def to_byte (ch : Int) : Nat := (ch % 256).toNat

/-- `log_key`: one `write` of the key code, cut to a byte, on `log_file`. -/
def log_key (s : State) (ch : Int) (_terminal_id : Nat) : Call :=
  Call.write s.log_file [to_byte ch]

/-- The tail of `handle_input`: `buffer[0] = ch` and
`vterm_input_write(terminals[active_terminal].vt, buffer, 1)`. -/
def send_to_active (s : State) (ch : Int) : Call :=
  Call.vterm_input_write (s.terminals.get s.active_terminal).vt [to_byte ch]

/-- What one call of a function that reads the keyboard leaves behind. -/
structure Outcome where
  st : State
  kbd : List Int
  calls : List Call
deriving DecidableEq, Repr

/-- `handle_input`. -/
def handle_input (s : State) (kbd : List Int) : Outcome :=
  let (ch, kbd1) := getch kbd
  if ch = ERR then
    ⟨s, kbd1, []⟩
  else
    let c1 := [log_key s ch s.active_terminal]
    if ch = 1 then
      if s.ignore_next_ctrl_a ≠ 0 then
        let s1 := { s with ignore_next_ctrl_a := 0 }
        ⟨s1, kbd1, c1 ++ [send_to_active s1 ch]⟩
      else
        let (ch2, kbd2) := getch kbd1
        if ch2 = ERR ∨ ch2 = 1 then
          let c2 := if ch2 = 1 then c1 ++ [log_key s ch2 s.active_terminal] else c1
          let (s1, c3) := toggle_active_terminal s
          ⟨s1, kbd2, c2 ++ c3⟩
        else
          ⟨s, kbd2, c1 ++ [log_key s ch2 s.active_terminal] ++ [send_to_active s ch2]⟩
    else
      let s1 := { s with ignore_next_ctrl_a := 0 }
      ⟨s1, kbd1, c1 ++ [send_to_active s1 ch]⟩

/-- The first `n` calls of `handle_input` of a run, one after the other, on
the same keyboard. -/
def handle_inputs : Nat → State → List Int → Outcome
  | 0, s, kbd => ⟨s, kbd, []⟩
  | n + 1, s, kbd =>
    let r := handle_input s kbd
    let r2 := handle_inputs n r.st r.kbd
    ⟨r2.st, r2.kbd, r.calls ++ r2.calls⟩

/-! ## Pty output -/

/-- What `poll` and `read` report for one pty in one `handle_output`. -/
structure PtyPoll where
  pollin : Bool
  bytes_read : Int
  data : List Nat
  would_block : Bool
deriving DecidableEq, Repr

/-- The result of `poll(fds, MAX_TERMINALS, 0)` and of the reads after it. -/
structure PollResult where
  ready : Int
  fd0 : PtyPoll
  fd1 : PtyPoll
deriving DecidableEq, Repr

/-- Entry `i` of the `fds` array. -/
def PollResult.get (p : PollResult) (i : Nat) : PtyPoll :=
  if i = 0 then p.fd0 else p.fd1

/-- `handle_output`: every pty that is readable and gave bytes has them fed
to its own emulator with `vterm_input_write`. -/
def handle_output (s : State) (p : PollResult) : List Call :=
  if p.ready > 0 then
    (List.range MAX_TERMINALS).flatMap (fun i =>
      if (p.get i).pollin then
        if (p.get i).bytes_read > 0 then
          [Call.vterm_input_write (s.terminals.get i).vt
            ((p.get i).data.take (p.get i).bytes_read.toNat)]
        else if (p.get i).bytes_read < 0 ∧ ¬ (p.get i).would_block then
          [Call.message "read from pty"]
        else []
      else [])
  else []

/-- `vterm_output_callback`: bytes the emulator produces are written on the
pty descriptor of its terminal. -/
def vterm_output_callback (term : Terminal) (bytes : List Nat) : Call :=
  Call.write term.pty_fd bytes

/-! ## Signals -/

/-- The body of the `while` loop of `sigchld_handler` for one reaped `pid`:
the first terminal whose `child_pid` equals it sets `should_exit` and ends
the scan.  The `printf` is recorded without the pid it prints. -/
def sigchld_scan (s : State) (pid : Int) : State × List Call :=
  match (List.range MAX_TERMINALS).find? (fun i => (s.terminals.get i).child_pid == pid) with
  | some _ => ({ s with should_exit := 1 }, [Call.message "Child process terminated"])
  | none => (s, [])

/-- `sigchld_handler`.  `waits` lists what the coming `waitpid(-1, ..)` calls
return; the loop runs while the value is positive, and a `waitpid` after the
list finds no child. -/
def sigchld_handler (s : State) (waits : List Int) : State × List Call :=
  match waits with
  | [] => (s, [])
  | pid :: rest =>
    if pid > 0 then
      let (s1, c1) := sigchld_scan s pid
      let (s2, c2) := sigchld_handler s1 rest
      (s2, c1 ++ c2)
    else (s, [])

/-- The `struct winsize` fields that are used (both `unsigned short`). -/
structure Winsize where
  ws_row : Nat
  ws_col : Nat
deriving DecidableEq, Repr

/-- Store of an `int` into an `unsigned short`. -/
def to_ushort (v : Int) : Nat := (v % 65536).toNat

/-- The loop of `sigwinch_handler` that resizes emulator and pty of every
terminal; `ok i` tells whether the `ioctl` on terminal `i` succeeded. -/
def resize_calls (ts : Terminals) (ok : Nat → Bool) : List Call :=
  (List.range MAX_TERMINALS).flatMap (fun i =>
    [Call.vterm_set_size (ts.get i).vt (ts.get i).row_count (ts.get i).col_count,
     Call.set_winsize (ts.get i).pty_fd (to_ushort (ts.get i).row_count)
       (to_ushort (ts.get i).col_count)] ++
    (if ok i then [] else [Call.message "ioctl TIOCSWINSZ"]))

/-- `sigwinch_handler`.  `ws` is what `ioctl(STDIN_FILENO, TIOCGWINSZ, &ws)`
gives, `none` when it fails. -/
def sigwinch_handler (s : State) (ws : Option Winsize) (ok0 ok1 : Bool) :
    State × List Call :=
  match ws with
  | none => (s, [Call.message "ioctl TIOCGWINSZ"])
  | some ws =>
    let ts := s.terminals
    let ts := ts.set 0 { ts.get 0 with row_count := (ws.ws_row : Int) / 2 }
    let ts := ts.set 1 { ts.get 1 with row_count := (ws.ws_row : Int) - (ts.get 0).row_count }
    let ts := ts.set 0 { ts.get 0 with col_count := (ws.ws_col : Int) }
    let ts := ts.set 1 { ts.get 1 with col_count := (ws.ws_col : Int) }
    let ts := ts.set 1 { ts.get 1 with start_row := (ts.get 0).row_count }
    ({ s with terminals := ts },
     [Call.resizeterm ws.ws_row ws.ws_col,
      Call.wresize (ts.get 0).win (ts.get 0).row_count (ts.get 0).col_count,
      Call.wresize (ts.get 1).win (ts.get 1).row_count (ts.get 1).col_count,
      Call.mvwin (ts.get 1).win (ts.get 1).start_row] ++
     resize_calls ts (fun i => if i = 0 then ok0 else ok1) ++
     [Call.clearok, Call.refresh] ++
     (List.range MAX_TERMINALS).map (fun i => Call.wrefresh (ts.get i).win))

/-! ## Start-up -/

/-- The ways start-up ends the process instead of returning. -/
inductive Fatal where
  | ioctl_failed
  | forkpty_failed
  | in_child
deriving DecidableEq, Repr

/-- What the outside world hands back while one terminal is created: the
handles of `vterm_new`, `vterm_obtain_screen`, `newwin`, and the pid and
descriptor of `forkpty`. -/
structure TermEnv where
  vt : Nat
  vts : Nat
  win : Nat
  fork_pid : Int
  fork_fd : Int
deriving DecidableEq, Repr

/-- `init_terminal(index, rows, cols, start_row)`.  A `forkpty` result of
`-1` ends the process; a result of `0` is the child, which becomes the shell. -/
def init_terminal (s : State) (index : Nat) (rows cols start_row : Int) (env : TermEnv) :
    Except Fatal (State × List Call) :=
  let term := s.terminals.get index
  let term := { term with vt := env.vt, vts := env.vts }
  let term := { term with win := env.win }
  let term := { term with row_count := rows, col_count := cols, start_row := start_row,
                          active := if index = 0 then 1 else 0 }
  let term := { term with child_pid := env.fork_pid, pty_fd := env.fork_fd }
  let calls := [Call.vterm_new env.vt rows cols, Call.vterm_screen_reset env.vts,
                Call.newwin env.win rows cols start_row,
                Call.forkpty (to_ushort rows) (to_ushort cols)]
  if env.fork_pid = -1 then Except.error Fatal.forkpty_failed
  else if env.fork_pid = 0 then Except.error Fatal.in_child
  else Except.ok ({ s with terminals := s.terminals.set index term },
                  calls ++ [Call.set_nonblock env.fork_fd])

/-- The all-zero `Terminal` of static storage. -/
def zero_terminal : Terminal :=
  ⟨0, 0, 0, 0, 0, 0, 0, 0, 0⟩

/-- The globals as the C file initialises them, before `main` runs. -/
def initial_state : State :=
  { terminals := ⟨zero_terminal, zero_terminal⟩, active_terminal := 0,
    ignore_next_ctrl_a := 0, should_exit := 0, log_file := -1 }

/-- What the outside world hands back during `init_terminals`: the physical
size (`none` when the `ioctl` fails), the descriptor `open` returns for the
log file, and the values for each of the two terminals. -/
structure InitEnv where
  ws : Option Winsize
  log_fd : Int
  term0 : TermEnv
  term1 : TermEnv
deriving DecidableEq, Repr

/-- `init_terminals`, run on the initial globals. -/
def init_terminals (env : InitEnv) : Except Fatal (State × List Call) :=
  match env.ws with
  | none => Except.error Fatal.ioctl_failed
  | some ws =>
    let s := { initial_state with log_file := env.log_fd }
    let c0 := if env.log_fd = 0 then [Call.message "Failed to open log file"] else []
    let top_rows : Int := (ws.ws_row : Int) / 2
    let bottom_rows : Int := (ws.ws_row : Int) - top_rows
    match init_terminal s 0 top_rows ws.ws_col 0 env.term0 with
    | Except.error e => Except.error e
    | Except.ok (s1, c1) =>
      match init_terminal s1 1 bottom_rows ws.ws_col top_rows env.term1 with
      | Except.error e => Except.error e
      | Except.ok (s2, c2) =>
        Except.ok (s2, c0 ++ c1 ++ c2 ++ [Call.mvhline (top_rows - 1) ws.ws_col, Call.refresh])

/-! ## Main loop -/

/-- A signal delivered to the process, with what its handler will be handed. -/
inductive Signal where
  | sigchld (waits : List Int)
  | sigwinch (ws : Option Winsize) (ok0 ok1 : Bool)
deriving DecidableEq, Repr

/-- Run the handler of one signal. -/
def deliver (s : State) (sig : Signal) : State × List Call :=
  match sig with
  | Signal.sigchld waits => sigchld_handler s waits
  | Signal.sigwinch ws ok0 ok1 => sigwinch_handler s ws ok0 ok1

/-- Run the handlers of a list of signals in order. -/
def deliver_all (s : State) (sigs : List Signal) : State × List Call :=
  match sigs with
  | [] => (s, [])
  | sig :: rest =>
    let (s1, c1) := deliver s sig
    let (s2, c2) := deliver_all s1 rest
    (s2, c1 ++ c2)

/-- What the outside world does during one iteration of the main loop: the
poll result seen by `handle_output` and the signals that arrive before the
loop condition is tested again (taken to arrive during the `usleep`). -/
structure Tick where
  poll : PollResult
  signals : List Signal
deriving DecidableEq, Repr

/-- An iteration in which nothing happens outside. -/
def quiet_tick : Tick :=
  ⟨⟨0, ⟨false, 0, [], false⟩, ⟨false, 0, [], false⟩⟩, []⟩

/-- The test of `while (!should_exit)`. -/
def loop_condition (s : State) : Bool := s.should_exit == 0

/-- The `while (!should_exit)` loop of `main`, at most `fuel` tests of the
condition.  The result is the final state, the trace and the number of
iterations run; `none` when the fuel ends before the loop does. -/
def main_loop : Nat → State → List Int → List Tick → Option (State × List Call × Nat)
  | 0, _, _, _ => none
  | fuel + 1, s, kbd, ticks =>
    if loop_condition s then
      let r := handle_input s kbd
      let tick := ticks.headD quiet_tick
      let c2 := handle_output r.st tick.poll
      let (s3, c3) := deliver_all r.st tick.signals
      match main_loop fuel s3 r.kbd ticks.tail with
      | none => none
      | some (s4, c4, k) => some (s4, r.calls ++ c2 ++ [Call.usleep 10000] ++ c3 ++ c4, k + 1)
    else some (s, [], 0)

/-! ## Reading a trace -/

/-- The bytes written on descriptor `fd`, in order. -/
def written_to (fd : Int) (calls : List Call) : List Nat :=
  calls.flatMap (fun c =>
    match c with
    | Call.write fd2 bytes => if fd2 = fd then bytes else []
    | _ => [])

/-- The `vterm_input_write` calls of a trace: emulator handle and bytes. -/
def input_writes (calls : List Call) : List (Nat × List Nat) :=
  calls.filterMap (fun c =>
    match c with
    | Call.vterm_input_write vt bytes => some (vt, bytes)
    | _ => none)

/-- The calls into the emulator that feed, reset or resize it. -/
def Call.is_emulator_call : Call → Bool
  | Call.vterm_input_write _ _ => true
  | Call.vterm_set_size _ _ _ => true
  | Call.vterm_new _ _ _ => true
  | Call.vterm_screen_reset _ => true
  | _ => false

/-- The bytes a list of keyboard reads delivered: every read that is not
`ERR`, in order. -/
def bytes_read (kbd : List Int) : List Nat :=
  (kbd.filter (fun k => k != ERR)).map to_byte

/-- A keyboard read that returns a byte or nothing. -/
abbrev is_byte_or_none (k : Int) : Prop := k = ERR ∨ (0 ≤ k ∧ k < 256)

/-! ## States the program can reach -/

/-- One operation of the running program on its globals. -/
inductive Step : State → State → Prop where
  | input (s : State) (kbd : List Int) : Step s (handle_input s kbd).st
  | toggle (s : State) : Step s (toggle_active_terminal s).1
  | resize (s : State) (ws : Option Winsize) (ok0 ok1 : Bool) :
      Step s (sigwinch_handler s ws ok0 ok1).1
  | child_exit (s : State) (waits : List Int) : Step s (sigchld_handler s waits).1

/-- The states reached from a successful `init_terminals` by any sequence of
operations. -/
inductive Reachable : State → Prop where
  | init (env : InitEnv) (s : State) (calls : List Call) :
      init_terminals env = Except.ok (s, calls) → Reachable s
  | step (s s2 : State) : Reachable s → Step s s2 → Reachable s2

/-- The active-index invariant: the index is in range, the terminal at the
index has its flag at 1 and the other one has it at 0. -/
def ActiveInv (s : State) : Prop :=
  s.active_terminal < MAX_TERMINALS ∧
  (s.terminals.get s.active_terminal).active = 1 ∧
  (s.terminals.get (1 - s.active_terminal)).active = 0

/-- The invariant of the running program: the active-index invariant, and
the top terminal starts at row 0. -/
def Inv (s : State) : Prop :=
  ActiveInv s ∧ (s.terminals.get 0).start_row = 0

/-- The state `init_terminals` builds for physical size `ws`. -/
def state_after_init (env : InitEnv) (ws : Winsize) : State :=
  { terminals :=
      ⟨⟨env.term0.vt, env.term0.vts, env.term0.fork_pid, env.term0.fork_fd, env.term0.win, 1,
        (ws.ws_row : Int) / 2, ws.ws_col, 0⟩,
       ⟨env.term1.vt, env.term1.vts, env.term1.fork_pid, env.term1.fork_fd, env.term1.win, 0,
        (ws.ws_row : Int) - (ws.ws_row : Int) / 2, ws.ws_col, (ws.ws_row : Int) / 2⟩⟩,
    active_terminal := 0, ignore_next_ctrl_a := 0, should_exit := 0, log_file := env.log_fd }

/-- The viewport facts for physical size `R` rows by `C` columns: the top
terminal has `R / 2` rows, the two row counts add up to `R`, both have `C`
columns, the top one starts at row 0 and the bottom one where the top one
ends, and every row of `[0, R)` lies in exactly one of the two row ranges. -/
def Viewports (s : State) (R C : Nat) : Prop :=
  (s.terminals.get 0).row_count = ((R / 2 : Nat) : Int) ∧
  (s.terminals.get 0).row_count + (s.terminals.get 1).row_count = (R : Int) ∧
  (s.terminals.get 0).col_count = (C : Int) ∧
  (s.terminals.get 1).col_count = (C : Int) ∧
  (s.terminals.get 0).start_row = 0 ∧
  (s.terminals.get 1).start_row = (s.terminals.get 0).row_count ∧
  (∀ r : Int, (0 ≤ r ∧ r < (R : Int)) ↔
    (((s.terminals.get 0).start_row ≤ r ∧
        r < (s.terminals.get 0).start_row + (s.terminals.get 0).row_count) ∨
     ((s.terminals.get 1).start_row ≤ r ∧
        r < (s.terminals.get 1).start_row + (s.terminals.get 1).row_count))) ∧
  (∀ r : Int, ¬ (((s.terminals.get 0).start_row ≤ r ∧
        r < (s.terminals.get 0).start_row + (s.terminals.get 0).row_count) ∧
     ((s.terminals.get 1).start_row ≤ r ∧
        r < (s.terminals.get 1).start_row + (s.terminals.get 1).row_count)))

/-- A terminal with its `active` field put to 0, to compare the other fields. -/
def Terminal.without_active (t : Terminal) : Terminal := { t with active := 0 }

/-- The start-up environment of an 80 column, 24 row terminal. -/
def env_80x24 : InitEnv :=
  { ws := some ⟨24, 80⟩, log_fd := 3,
    term0 := ⟨100, 101, 102, 4000, 4⟩, term1 := ⟨200, 201, 202, 4001, 5⟩ }

/-- The state `init_terminals` leaves on an 80 by 24 terminal. -/
def state_80x24 : State :=
  { terminals := ⟨⟨100, 101, 4000, 4, 102, 1, 12, 80, 0⟩, ⟨200, 201, 4001, 5, 202, 0, 12, 80, 12⟩⟩,
    active_terminal := 0, ignore_next_ctrl_a := 0, should_exit := 0, log_file := 3 }

/-- The prefix bits of the lead byte of an `n`-byte UTF-8 sequence. -/
def lead_bits_ok (n b0 : Nat) : Prop :=
  (n = 1 ∧ b0 / 128 = 0) ∨ (n = 2 ∧ b0 / 32 = 6) ∨ (n = 3 ∧ b0 / 16 = 14) ∨
  (n = 4 ∧ b0 / 8 = 30)

/-! ## Bit arithmetic -/

theorem and_3F (x : Nat) : x &&& 0x3F = x % 64 :=
  Nat.and_pow_two_sub_one_eq_mod x 6

theorem shr_6 (x : Nat) : x >>> 6 = x / 64 := Nat.shiftRight_eq_div_pow x 6

theorem shr_12 (x : Nat) : x >>> 12 = x / 4096 := Nat.shiftRight_eq_div_pow x 12

theorem shr_18 (x : Nat) : x >>> 18 = x / 262144 := Nat.shiftRight_eq_div_pow x 18

theorem or_80 : ∀ x, x < 64 → 0x80 ||| x = 128 + x := by decide

theorem or_C0 : ∀ x, x < 32 → 0xC0 ||| x = 192 + x := by decide

theorem or_E0 : ∀ x, x < 16 → 0xE0 ||| x = 224 + x := by decide

theorem or_F0 : ∀ x, x < 8 → 0xF0 ||| x = 240 + x := by decide

theorem bne_zero (x : Nat) (h : 0 < x) : (x != 0) = true := by
  simp; omega

theorem c_string_2 (a b : Nat) (ha : 0 < a) (hb : 0 < b) :
    c_string [a, b, 0, 0, 0, 0, 0] = [a, b] := by
  have na := bne_zero a ha
  have nb := bne_zero b hb
  simp [c_string, List.takeWhile_cons, na, nb]

theorem cell_string_1 (c : Nat) (h1 : 1 ≤ c) (h : c < 0x80) : cell_string c = [c] := by
  have hc : c % 256 = c := by omega
  have hne : (c != 0) = true := by simp; omega
  simp [cell_string, utf8_buffer, c_string, to_char, h, hc, List.takeWhile, hne]

theorem cell_string_2 (c : Nat) (h0 : ¬ c < 0x80) (h : c < 0x800) :
    cell_string c = [192 + c / 64, 128 + c % 64] := by
  have e0 : 0xC0 ||| (c >>> 6) = 192 + c / 64 := by
    rw [shr_6]; exact or_C0 _ (by omega)
  have e1 : 0x80 ||| (c &&& 0x3F) = 128 + c % 64 := by
    rw [and_3F]; exact or_80 _ (by omega)
  have m0 : (192 + c / 64) % 256 = 192 + c / 64 := by omega
  have m1 : (128 + c % 64) % 256 = 128 + c % 64 := by omega
  simp only [cell_string, utf8_buffer, if_neg h0, if_pos h, to_char, e0, e1, m0, m1]
  exact c_string_2 _ _ (by omega) (by omega)

theorem cell_string_3 (c : Nat) (h0 : ¬ c < 0x800) (h : c < 0x10000) :
    cell_string c = [224 + c / 4096, 128 + c / 64 % 64, 128 + c % 64] := by
  have h00 : ¬ c < 0x80 := by omega
  have e0 : 0xE0 ||| (c >>> 12) = 224 + c / 4096 := by
    rw [shr_12]; exact or_E0 _ (by omega)
  have e1 : 0x80 ||| ((c >>> 6) &&& 0x3F) = 128 + c / 64 % 64 := by
    rw [and_3F, shr_6]; exact or_80 _ (by omega)
  have e2 : 0x80 ||| (c &&& 0x3F) = 128 + c % 64 := by
    rw [and_3F]; exact or_80 _ (by omega)
  have m0 : (224 + c / 4096) % 256 = 224 + c / 4096 := by omega
  have m1 : (128 + c / 64 % 64) % 256 = 128 + c / 64 % 64 := by omega
  have m2 : (128 + c % 64) % 256 = 128 + c % 64 := by omega
  simp only [cell_string, utf8_buffer, if_neg h00, if_neg h0, if_pos h, to_char, e0, e1, e2,
    m0, m1, m2, c_string]
  simp [List.takeWhile_cons, bne_zero (224 + c / 4096) (by omega),
    bne_zero (128 + c / 64 % 64) (by omega), bne_zero (128 + c % 64) (by omega)]

theorem cell_string_4 (c : Nat) (h0 : ¬ c < 0x10000) (h : c < 0x110000) :
    cell_string c =
      [240 + c / 262144, 128 + c / 4096 % 64, 128 + c / 64 % 64, 128 + c % 64] := by
  have h00 : ¬ c < 0x80 := by omega
  have h01 : ¬ c < 0x800 := by omega
  have e0 : 0xF0 ||| (c >>> 18) = 240 + c / 262144 := by
    rw [shr_18]; exact or_F0 _ (by omega)
  have e1 : 0x80 ||| ((c >>> 12) &&& 0x3F) = 128 + c / 4096 % 64 := by
    rw [and_3F, shr_12]; exact or_80 _ (by omega)
  have e2 : 0x80 ||| ((c >>> 6) &&& 0x3F) = 128 + c / 64 % 64 := by
    rw [and_3F, shr_6]; exact or_80 _ (by omega)
  have e3 : 0x80 ||| (c &&& 0x3F) = 128 + c % 64 := by
    rw [and_3F]; exact or_80 _ (by omega)
  have m0 : (240 + c / 262144) % 256 = 240 + c / 262144 := by omega
  have m1 : (128 + c / 4096 % 64) % 256 = 128 + c / 4096 % 64 := by omega
  have m2 : (128 + c / 64 % 64) % 256 = 128 + c / 64 % 64 := by omega
  have m3 : (128 + c % 64) % 256 = 128 + c % 64 := by omega
  simp only [cell_string, utf8_buffer, if_neg h00, if_neg h01, if_neg h0, if_pos h, to_char,
    e0, e1, e2, e3, m0, m1, m2, m3, c_string]
  simp [List.takeWhile_cons, bne_zero (240 + c / 262144) (by omega),
    bne_zero (128 + c / 4096 % 64) (by omega), bne_zero (128 + c / 64 % 64) (by omega),
    bne_zero (128 + c % 64) (by omega)]

theorem cell_string_invalid (c : Nat) (h : 0x110000 ≤ c) : cell_string c = [63] := by
  have h1 : ¬ c < 0x80 := by omega
  have h2 : ¬ c < 0x800 := by omega
  have h3 : ¬ c < 0x10000 := by omega
  have h4 : ¬ c < 0x110000 := by omega
  simp only [cell_string, utf8_buffer, if_neg h1, if_neg h2, if_neg h3, if_neg h4, c_string]
  decide

/-! ## Traces of the input path -/

theorem range_max : List.range MAX_TERMINALS = [0, 1] := by decide

theorem written_to_append (fd : Int) (a b : List Call) :
    written_to fd (a ++ b) = written_to fd a ++ written_to fd b := by
  simp [written_to]

theorem input_writes_append (a b : List Call) :
    input_writes (a ++ b) = input_writes a ++ input_writes b := by
  simp [input_writes]

theorem toggle_calls (s : State) :
    ∃ w0 w1 c0 c1 x0 x1, (toggle_active_terminal s).2 =
      [Call.mvwprintw w0 0 c0 x0, Call.wrefresh w0, Call.mvwprintw w1 0 c1 x1,
       Call.wrefresh w1] := by
  simp only [toggle_active_terminal, range_max, List.flatMap_cons, List.flatMap_nil,
    indicator_calls]
  split <;> split <;> exact ⟨_, _, _, _, _, _, rfl⟩

theorem toggle_written (s : State) (fd : Int) :
    written_to fd (toggle_active_terminal s).2 = [] := by
  obtain ⟨w0, w1, c0, c1, x0, x1, h⟩ := toggle_calls s
  rw [h]; rfl

theorem toggle_input_writes (s : State) : input_writes (toggle_active_terminal s).2 = [] := by
  obtain ⟨w0, w1, c0, c1, x0, x1, h⟩ := toggle_calls s
  rw [h]; rfl

theorem toggle_log_file (s : State) : (toggle_active_terminal s).1.log_file = s.log_file := rfl

theorem bytes_read_cons_err (rest : List Int) : bytes_read (ERR :: rest) = bytes_read rest := by
  simp [bytes_read]

theorem bytes_read_cons (k : Int) (rest : List Int) (h : k ≠ ERR) :
    bytes_read (k :: rest) = to_byte k :: bytes_read rest := by
  simp [bytes_read, h]

theorem written_to_nil (fd : Int) : written_to fd [] = [] := rfl

theorem written_to_write (fd fd2 : Int) (bytes : List Nat) (cs : List Call) :
    written_to fd (Call.write fd2 bytes :: cs) =
      (if fd2 = fd then bytes else []) ++ written_to fd cs := by
  simp [written_to]

theorem written_to_input_write (fd : Int) (vt : Nat) (bytes : List Nat) (cs : List Call) :
    written_to fd (Call.vterm_input_write vt bytes :: cs) = written_to fd cs := by
  simp [written_to]

/-- One call of `handle_input` takes a prefix of the pending reads (at least
one of them when any is pending), writes the bytes of that prefix on
`log_file` and nothing else there, and keeps `log_file`. -/
theorem handle_input_log (s : State) (kbd : List Int) :
    ∃ pre, kbd = pre ++ (handle_input s kbd).kbd ∧
      written_to s.log_file (handle_input s kbd).calls = bytes_read pre ∧
      (handle_input s kbd).st.log_file = s.log_file ∧
      (kbd ≠ [] → pre ≠ []) := by
  have hE : ERR = -1 := rfl
  rcases kbd with _ | ⟨k, rest⟩
  · exact ⟨[], by simp [handle_input, getch], by simp [handle_input, getch, written_to, bytes_read],
      by simp [handle_input, getch], by simp⟩
  · by_cases hk : k = -1
    · subst hk
      refine ⟨[-1], ?_, ?_, ?_, by simp⟩ <;>
        simp [handle_input, getch, written_to, bytes_read, hE]
    · by_cases h1 : k = 1
      · subst h1
        by_cases hi : s.ignore_next_ctrl_a = 0
        · rcases rest with _ | ⟨k2, rest2⟩
          · refine ⟨[1], ?_, ?_, ?_, by simp⟩
            · simp [handle_input, getch, hi, hE]
            · simp [handle_input, getch, hi, hE, log_key, written_to_write, toggle_written,
                bytes_read]
            · simp [handle_input, getch, hi, hE, toggle_log_file]
          · by_cases h2 : k2 = -1
            · subst h2
              refine ⟨[1, -1], ?_, ?_, ?_, by simp⟩
              · simp [handle_input, getch, hi, hE]
              · simp [handle_input, getch, hi, hE, log_key, written_to_write, toggle_written,
                  bytes_read]
              · simp [handle_input, getch, hi, hE, toggle_log_file]
            · by_cases h3 : k2 = 1
              · subst h3
                refine ⟨[1, 1], ?_, ?_, ?_, by simp⟩
                · simp [handle_input, getch, hi, hE]
                · simp [handle_input, getch, hi, hE, log_key, written_to_write, toggle_written,
                    bytes_read]
                · simp [handle_input, getch, hi, hE, toggle_log_file]
              · refine ⟨[1, k2], ?_, ?_, ?_, by simp⟩
                · simp [handle_input, getch, hi, hE, h2, h3]
                · simp [handle_input, getch, hi, hE, h2, h3, log_key, send_to_active,
                    written_to_write, written_to_input_write, written_to_nil, bytes_read]
                · simp [handle_input, getch, hi, hE, h2, h3]
        · refine ⟨[1], ?_, ?_, ?_, by simp⟩ <;>
            simp [handle_input, getch, hi, hE, log_key, send_to_active, written_to_write,
              written_to_input_write, written_to_nil, bytes_read]
      · refine ⟨[k], ?_, ?_, ?_, by simp⟩ <;>
          simp [handle_input, getch, hk, h1, hE, log_key, send_to_active, written_to_write,
            written_to_input_write, written_to_nil, bytes_read]

/-- The same for `n` calls in a row: the log holds the bytes of the reads
taken so far, and either `n` reads at least were taken or none is left. -/
theorem handle_inputs_log (n : Nat) : ∀ (s : State) (kbd : List Int),
    ∃ pre, kbd = pre ++ (handle_inputs n s kbd).kbd ∧
      written_to s.log_file (handle_inputs n s kbd).calls = bytes_read pre ∧
      (handle_inputs n s kbd).st.log_file = s.log_file ∧
      ((handle_inputs n s kbd).kbd = [] ∨ n ≤ pre.length) := by
  induction n with
  | zero =>
    intro s kbd
    exact ⟨[], by simp [handle_inputs], by simp [handle_inputs, written_to, bytes_read],
      by simp [handle_inputs], by simp⟩
  | succ n ih =>
    intro s kbd
    obtain ⟨p1, e1, w1, l1, g1⟩ := handle_input_log s kbd
    obtain ⟨p2, e2, w2, l2, g2⟩ := ih (handle_input s kbd).st (handle_input s kbd).kbd
    refine ⟨p1 ++ p2, ?_, ?_, ?_, ?_⟩
    · simp only [handle_inputs, List.append_assoc]
      rw [← e2, ← e1]
    · simp only [handle_inputs, written_to_append]
      rw [w1, ← l1, w2]
      simp [bytes_read]
    · simp only [handle_inputs]
      rw [l2, l1]
    · simp only [handle_inputs]
      rcases g2 with g2 | g2
      · exact Or.inl g2
      · by_cases hk : kbd = []
        · left
          subst hk
          have : p1 = [] ∧ (handle_input s []).kbd = [] := by
            simpa using e1.symm
          have e2' := e2
          rw [this.2] at e2'
          have : p2 = [] ∧ (handle_inputs n (handle_input s []).st (handle_input s []).kbd).kbd
              = [] := by simpa using e2'.symm
          exact this.2
        · right
          have := g1 hk
          have : 0 < p1.length := List.length_pos.mpr this
          simp only [List.length_append]
          omega

theorem bytes_read_of_bytes (kbd : List Int) (hk : ∀ k ∈ kbd, is_byte_or_none k) :
    (bytes_read kbd).map (fun b : Nat => (b : Int)) = kbd.filter (fun k => k != ERR) := by
  induction kbd with
  | nil => rfl
  | cons k rest ih =>
    have ih := ih (fun x hx => hk x (List.mem_cons_of_mem _ hx))
    rcases hk k (List.mem_cons_self _ _) with h | ⟨h0, h1⟩
    · subst h
      rw [bytes_read_cons_err, ih]
      simp
    · have hne : k ≠ ERR := by simp only [ERR]; omega
      rw [bytes_read_cons k rest hne, List.map_cons, ih]
      have : ((to_byte k : Nat) : Int) = k := by
        simp only [to_byte]
        rw [Int.toNat_of_nonneg (by omega)]
        omega
      simp [hne, this]

/-- C1: for every finite sequence `kbd` of keyboard reads, each returning a
byte or nothing (`ERR`), every starting state (so every value of the
suppression flag and of the active index), and every number `n` of calls of
`handle_input` that is at least the number of reads, the calls take every
read and the bytes written on `log_file` are exactly the bytes the reads
returned, each once, in arrival order: swallowed reserved bytes, the byte
that triggers a focus switch and the byte read by the lookahead included. -/
theorem keystroke_log_verbatim (n : Nat) (s : State) (kbd : List Int)
    (hk : ∀ k ∈ kbd, is_byte_or_none k) (hn : kbd.length ≤ n) :
    (handle_inputs n s kbd).kbd = [] ∧
    (written_to s.log_file (handle_inputs n s kbd).calls).map (fun b : Nat => (b : Int)) =
      kbd.filter (fun k => k != ERR) ∧
    written_to s.log_file (handle_inputs n s kbd).calls = bytes_read kbd := by
  obtain ⟨pre, e, w, _, g⟩ := handle_inputs_log n s kbd
  have hnil : (handle_inputs n s kbd).kbd = [] := by
    rcases g with g | g
    · exact g
    · have hl : kbd.length = pre.length + (handle_inputs n s kbd).kbd.length := by
        conv_lhs => rw [e]
        simp
      have : (handle_inputs n s kbd).kbd.length = 0 := by omega
      exact List.length_eq_zero.mp this
  have hpre : pre = kbd := by
    rw [hnil] at e
    simpa using e.symm
  subst hpre
  exact ⟨hnil, by rw [w]; exact bytes_read_of_bytes pre hk, w⟩

/-- C1 on the reads `a`, reserved, reserved, nothing, reserved, `b`, reserved
with the suppression flag set and terminal 1 active at the start. -/
theorem keystroke_log_verbatim_witness :
    (handle_inputs 7 { state_80x24 with ignore_next_ctrl_a := 1, active_terminal := 1 }
        [97, 1, 1, -1, 1, 98, 1]).kbd = [] ∧
    (written_to 3 (handle_inputs 7
        { state_80x24 with ignore_next_ctrl_a := 1, active_terminal := 1 }
        [97, 1, 1, -1, 1, 98, 1]).calls).map (fun b : Nat => (b : Int)) =
      [97, 1, 1, 1, 98, 1] ∧
    written_to 3 (handle_inputs 7
        { state_80x24 with ignore_next_ctrl_a := 1, active_terminal := 1 }
        [97, 1, 1, -1, 1, 98, 1]).calls = [97, 1, 1, 1, 98, 1] :=
  keystroke_log_verbatim 7 { state_80x24 with ignore_next_ctrl_a := 1, active_terminal := 1 }
    [97, 1, 1, -1, 1, 98, 1] (by decide) (by decide)

/-! ## What `handle_input` does to the state and to the sessions -/

theorem handle_inputs_nil (n : Nat) (s : State) : handle_inputs n s [] = ⟨s, [], []⟩ := by
  induction n with
  | zero => rfl
  | succ n ih => simp [handle_inputs, handle_input, getch, ih]

/-- The state after `handle_input` is the old one, the old one with the
suppression flag cleared, or the old one after one focus toggle; when the
state changed, a read was taken. -/
theorem handle_input_state (s : State) (kbd : List Int) :
    (handle_input s kbd).st = s ∨
    (handle_input s kbd).st = { s with ignore_next_ctrl_a := 0 } ∨
    (handle_input s kbd).st = (toggle_active_terminal s).1 := by
  unfold handle_input
  simp only []
  split_ifs <;> simp

/-- `handle_input` writes on no descriptor but `log_file`. -/
theorem handle_input_writes_log_only (s : State) (kbd : List Int) (fd : Int)
    (h : fd ≠ s.log_file) : written_to fd (handle_input s kbd).calls = [] := by
  have h2 : ¬ s.log_file = fd := fun e => h e.symm
  unfold handle_input
  simp only []
  split_ifs <;>
    simp [log_key, send_to_active, written_to_write, written_to_input_write, written_to_nil,
      written_to_append, toggle_written, h2]

/-- A focus toggle changes no field of any terminal except `active`. -/
theorem toggle_keeps_fields (s : State) (i : Nat) :
    ((toggle_active_terminal s).1.terminals.get i).without_active =
      (s.terminals.get i).without_active := by
  simp only [toggle_active_terminal, Terminals.get, Terminals.set, Terminal.without_active]
  split_ifs <;> rfl

theorem toggle_keeps_vt (s : State) (i : Nat) :
    ((toggle_active_terminal s).1.terminals.get i).vt = (s.terminals.get i).vt := by
  have h := congrArg Terminal.vt (toggle_keeps_fields s i)
  exact h

theorem toggle_active_index (s : State) :
    (toggle_active_terminal s).1.active_terminal = (s.active_terminal + 1) % MAX_TERMINALS := rfl

theorem toggle_sets_flag (s : State) : (toggle_active_terminal s).1.ignore_next_ctrl_a = 1 := rfl

/-- With the flag clear, the reserved byte followed by nothing or by a second
reserved byte makes `handle_input` exactly one focus toggle after the log
writes, and takes both reads. -/
theorem handle_input_toggle (s : State) (h : s.ignore_next_ctrl_a = 0) (rest : List Int) :
    (handle_input s [1]).st = (toggle_active_terminal s).1 ∧
    (handle_input s [1]).kbd = [] ∧
    (handle_input s [1]).calls = Call.write s.log_file [1] :: (toggle_active_terminal s).2 ∧
    (handle_input s (1 :: ERR :: rest)).st = (toggle_active_terminal s).1 ∧
    (handle_input s (1 :: ERR :: rest)).kbd = rest ∧
    (handle_input s (1 :: ERR :: rest)).calls =
      Call.write s.log_file [1] :: (toggle_active_terminal s).2 ∧
    (handle_input s (1 :: 1 :: rest)).st = (toggle_active_terminal s).1 ∧
    (handle_input s (1 :: 1 :: rest)).kbd = rest ∧
    (handle_input s (1 :: 1 :: rest)).calls =
      Call.write s.log_file [1] :: Call.write s.log_file [1] :: (toggle_active_terminal s).2 := by
  have hE : ERR = -1 := rfl
  simp [handle_input, getch, h, hE, log_key, to_byte]

/-- With the flag set, `handle_input` on a pending byte `b` clears the flag,
takes that one read, logs the byte and sends it to the active terminal. -/
theorem handle_input_suppressed (s : State) (h : s.ignore_next_ctrl_a ≠ 0) (b : Int)
    (hb : b ≠ ERR) (rest : List Int) :
    handle_input s (b :: rest) =
      ⟨{ s with ignore_next_ctrl_a := 0 }, rest,
       [Call.write s.log_file [to_byte b],
        Call.vterm_input_write (s.terminals.get s.active_terminal).vt [to_byte b]]⟩ := by
  have hE : ERR = -1 := rfl
  have hb' : ¬ b = -1 := hb
  by_cases h1 : b = 1
  · subst h1
    simp [handle_input, getch, h, hE, log_key, send_to_active]
  · simp [handle_input, getch, h1, hE, hb', log_key, send_to_active]

theorem to_byte_of_byte (b : Int) (h0 : 0 ≤ b) (h1 : b < 256) : to_byte b = b.toNat := by
  simp only [to_byte]
  congr 1
  omega

/-- C3: with the suppression flag clear, a call of `handle_input` that reads
the reserved byte 1 and then finds no further byte (nothing pending, or a
read returning `ERR`) or a second reserved byte is exactly one focus toggle:
the active index goes from `i` to `(i + 1) % 2`, no byte is sent to any
emulator and nothing is written on any descriptor but the log.  Two reserved
bytes in immediate succession switch focus once however many calls follow. -/
theorem reserved_byte_switches_once (s : State) (kbd rest : List Int)
    (h : s.ignore_next_ctrl_a = 0)
    (hk : kbd = [1] ∨ kbd = 1 :: ERR :: rest ∨ kbd = 1 :: 1 :: rest) :
    (handle_input s kbd).st = (toggle_active_terminal s).1 ∧
    (handle_input s kbd).st.active_terminal = (s.active_terminal + 1) % 2 ∧
    (s.active_terminal < 2 → (handle_input s kbd).st.active_terminal ≠ s.active_terminal) ∧
    input_writes (handle_input s kbd).calls = [] ∧
    (∀ fd, fd ≠ s.log_file → written_to fd (handle_input s kbd).calls = []) ∧
    (∀ n, (handle_inputs (n + 1) s [1, 1]).st.active_terminal = (s.active_terminal + 1) % 2) := by
  obtain ⟨a1, _, a3, b1, _, b3, c1, c2, c3⟩ := handle_input_toggle s h rest
  have hst : (handle_input s kbd).st = (toggle_active_terminal s).1 := by
    rcases hk with hk | hk | hk <;> subst hk <;> assumption
  have hiw : input_writes (handle_input s kbd).calls = [] := by
    rcases hk with hk | hk | hk <;> subst hk
    · rw [a3]; simpa [input_writes] using toggle_input_writes s
    · rw [b3]; simpa [input_writes] using toggle_input_writes s
    · rw [c3]; simpa [input_writes] using toggle_input_writes s
  refine ⟨hst, by rw [hst]; rfl, ?_, hiw, fun fd hfd => handle_input_writes_log_only s kbd fd hfd,
    ?_⟩
  · intro hlt
    rw [hst, toggle_active_index]
    simp only [MAX_TERMINALS]
    omega
  · intro n
    obtain ⟨d1, d2, _⟩ := (handle_input_toggle s h []).2.2.2.2.2.2
    simp only [handle_inputs]
    rw [d2, handle_inputs_nil, d1]
    rfl

/-- C3 on the start-up state of an 80 by 24 terminal with two reserved bytes
pending. -/
theorem reserved_byte_switches_once_witness :
    (handle_input state_80x24 [1, 1]).st = (toggle_active_terminal state_80x24).1 ∧
    (handle_input state_80x24 [1, 1]).st.active_terminal = (0 + 1) % 2 ∧
    (state_80x24.active_terminal < 2 →
      (handle_input state_80x24 [1, 1]).st.active_terminal ≠ state_80x24.active_terminal) ∧
    input_writes (handle_input state_80x24 [1, 1]).calls = [] ∧
    (∀ fd, fd ≠ state_80x24.log_file →
      written_to fd (handle_input state_80x24 [1, 1]).calls = []) ∧
    (∀ n, (handle_inputs (n + 1) state_80x24 [1, 1]).st.active_terminal = (0 + 1) % 2) :=
  reserved_byte_switches_once state_80x24 [1, 1] [] (by decide) (by decide)

/-- C4: with the suppression flag clear, for every byte `b` other than the
reserved byte, `handle_input` on the reserved byte immediately followed by
`b` takes both reads, leaves the whole state (the active index included)
unchanged, and sends exactly one byte, `b`, to the emulator of the terminal
that was active before the call: no other `vterm_input_write` happens, the
reserved byte is not sent, and nothing is written on any descriptor but the
log. -/
theorem reserved_then_other_forwards (s : State) (b : Int) (rest : List Int)
    (h : s.ignore_next_ctrl_a = 0) (h0 : 0 ≤ b) (h256 : b < 256) (hne : b ≠ 1) :
    (handle_input s (1 :: b :: rest)).st = s ∧
    (handle_input s (1 :: b :: rest)).kbd = rest ∧
    input_writes (handle_input s (1 :: b :: rest)).calls =
      [((s.terminals.get s.active_terminal).vt, [b.toNat])] ∧
    (∀ fd, fd ≠ s.log_file → written_to fd (handle_input s (1 :: b :: rest)).calls = []) := by
  have hE : ERR = -1 := rfl
  have hb : ¬ b = -1 := by omega
  refine ⟨?_, ?_, ?_, fun fd hfd => handle_input_writes_log_only s _ fd hfd⟩
  · simp [handle_input, getch, h, hE, hb, hne]
  · simp [handle_input, getch, h, hE, hb, hne]
  · simp [handle_input, getch, h, hE, hb, hne, input_writes, log_key, send_to_active,
      to_byte_of_byte b h0 h256]

/-- C4 on the start-up state of an 80 by 24 terminal: reserved byte, then `x`. -/
theorem reserved_then_other_forwards_witness :
    (handle_input state_80x24 [1, 120, 121]).st = state_80x24 ∧
    (handle_input state_80x24 [1, 120, 121]).kbd = [121] ∧
    input_writes (handle_input state_80x24 [1, 120, 121]).calls = [(100, [120])] ∧
    (∀ fd, fd ≠ state_80x24.log_file →
      written_to fd (handle_input state_80x24 [1, 120, 121]).calls = []) :=
  reserved_then_other_forwards state_80x24 120 [121] (by decide) (by decide) (by decide)
    (by decide)

/-- C5: every focus switch sets the suppression flag (`toggle_active_terminal`
sets it, and a `handle_input` that changes the active index leaves it set);
while it is set, `handle_input` on a pending byte `b` of any value, the
reserved byte included, takes that one read only (no lookahead), sends `b` to
the active terminal, keeps the active index and clears the flag.  So from a
flag-clear state three reserved bytes in a row make one call that toggles
focus and a second that sends one reserved byte to the new active terminal:
one switch, one byte sent. -/
theorem suppression_after_switch (s : State) :
    (toggle_active_terminal s).1.ignore_next_ctrl_a = 1 ∧
    (∀ kbd, (handle_input s kbd).st.active_terminal ≠ s.active_terminal →
      (handle_input s kbd).st.ignore_next_ctrl_a = 1) ∧
    (∀ (b : Int) (rest : List Int), s.ignore_next_ctrl_a ≠ 0 → 0 ≤ b → b < 256 →
      handle_input s (b :: rest) =
        ⟨{ s with ignore_next_ctrl_a := 0 }, rest,
         [Call.write s.log_file [b.toNat],
          Call.vterm_input_write (s.terminals.get s.active_terminal).vt [b.toNat]]⟩) ∧
    (s.ignore_next_ctrl_a = 0 →
      (handle_input s [1, 1, 1]).st = (toggle_active_terminal s).1 ∧
      (handle_input s [1, 1, 1]).kbd = [1] ∧
      input_writes (handle_input s [1, 1, 1]).calls = [] ∧
      (handle_input (toggle_active_terminal s).1 [1]).st.active_terminal =
        (s.active_terminal + 1) % 2 ∧
      (handle_input (toggle_active_terminal s).1 [1]).st.ignore_next_ctrl_a = 0 ∧
      (handle_inputs 2 s [1, 1, 1]).kbd = [] ∧
      (handle_inputs 2 s [1, 1, 1]).st.active_terminal = (s.active_terminal + 1) % 2 ∧
      input_writes (handle_inputs 2 s [1, 1, 1]).calls =
        [((s.terminals.get ((s.active_terminal + 1) % 2)).vt, [1])]) := by
  refine ⟨rfl, ?_, ?_, ?_⟩
  · intro kbd hne
    rcases handle_input_state s kbd with e | e | e
    · rw [e] at hne; exact absurd rfl hne
    · rw [e] at hne; exact absurd rfl hne
    · rw [e]; rfl
  · intro b rest hi h0 h256
    have hb : b ≠ ERR := by simp only [ERR]; omega
    rw [handle_input_suppressed s hi b hb rest, to_byte_of_byte b h0 h256]
  · intro hi
    obtain ⟨c1, c2, c3⟩ := (handle_input_toggle s hi [1]).2.2.2.2.2.2
    have hset : (toggle_active_terminal s).1.ignore_next_ctrl_a ≠ 0 := by
      rw [toggle_sets_flag]; decide
    have h2 := handle_input_suppressed (toggle_active_terminal s).1 hset 1 (by decide) []
    have hiw : input_writes (handle_input s [1, 1, 1]).calls = [] := by
      rw [c3]; simpa [input_writes] using toggle_input_writes s
    refine ⟨c1, c2, hiw, by rw [h2]; rfl, by rw [h2], ?_, ?_, ?_⟩
    · simp only [handle_inputs]
      rw [c1, c2, h2]
    · simp only [handle_inputs]
      rw [c1, c2, h2]
      rfl
    · simp only [handle_inputs]
      rw [input_writes_append, hiw, c1, c2, h2]
      simp only [List.nil_append, List.append_nil]
      rw [toggle_active_index, toggle_keeps_vt]
      rfl

/-- C5 on the start-up state of an 80 by 24 terminal, and on that state with
the flag set and the reserved byte pending. -/
theorem suppression_after_switch_witness :
    handle_input { state_80x24 with ignore_next_ctrl_a := 1 } [1, 7] =
      ⟨state_80x24, [7], [Call.write 3 [1], Call.vterm_input_write 100 [1]]⟩ ∧
    (handle_inputs 2 state_80x24 [1, 1, 1]).st.active_terminal = 1 ∧
    input_writes (handle_inputs 2 state_80x24 [1, 1, 1]).calls = [(200, [1])] :=
  ⟨(suppression_after_switch { state_80x24 with ignore_next_ctrl_a := 1 }).2.2.1 1 [7]
      (by decide) (by decide) (by decide),
   ((suppression_after_switch state_80x24).2.2.2 (by decide)).2.2.2.2.2.2.1,
   ((suppression_after_switch state_80x24).2.2.2 (by decide)).2.2.2.2.2.2.2⟩

/-! ## Invariants -/

theorem init_terminals_ok (env : InitEnv) (s : State) (calls : List Call)
    (h : init_terminals env = Except.ok (s, calls)) :
    ∃ ws, env.ws = some ws ∧ s = state_after_init env ws := by
  unfold init_terminals at h
  rcases hws : env.ws with _ | ws
  · simp [hws] at h
  · refine ⟨ws, rfl, ?_⟩
    simp only [hws, init_terminal] at h
    split_ifs at h <;>
      first
      | contradiction
      | (dsimp only at h
         simp only [Except.ok.injEq, Prod.mk.injEq] at h
         rw [← h.1]
         rfl)

theorem init_inv (env : InitEnv) (s : State) (calls : List Call)
    (h : init_terminals env = Except.ok (s, calls)) : Inv s := by
  obtain ⟨ws, _, e⟩ := init_terminals_ok env s calls h
  subst e
  simp [Inv, ActiveInv, state_after_init, Terminals.get, MAX_TERMINALS]

theorem toggle_inv (s : State) (h : Inv s) : Inv (toggle_active_terminal s).1 := by
  rcases s with ⟨⟨t0, t1⟩, a, ig, se, lf⟩
  obtain ⟨⟨ha, h1, h2⟩, h3⟩ := h
  simp only [MAX_TERMINALS] at ha
  have ha' : a = 0 ∨ a = 1 := by omega
  rcases ha' with rfl | rfl
  · simp_all [Inv, ActiveInv, toggle_active_terminal, Terminals.get, Terminals.set,
      MAX_TERMINALS]
  · simp_all [Inv, ActiveInv, toggle_active_terminal, Terminals.get, Terminals.set,
      MAX_TERMINALS]

theorem clear_flag_inv (s : State) (h : Inv s) : Inv { s with ignore_next_ctrl_a := 0 } := h

theorem handle_input_inv (s : State) (kbd : List Int) (h : Inv s) :
    Inv (handle_input s kbd).st := by
  rcases handle_input_state s kbd with e | e | e <;> rw [e]
  · exact h
  · exact clear_flag_inv s h
  · exact toggle_inv s h

/-- The state after a resize to `ws`, written out. -/
theorem sigwinch_some (s : State) (ws : Winsize) (ok0 ok1 : Bool) :
    (sigwinch_handler s (some ws) ok0 ok1).1 =
      { s with terminals :=
          ⟨{ s.terminals.t0 with row_count := (ws.ws_row : Int) / 2,
                                 col_count := (ws.ws_col : Int) },
           { s.terminals.t1 with row_count := (ws.ws_row : Int) - (ws.ws_row : Int) / 2,
                                 col_count := (ws.ws_col : Int),
                                 start_row := (ws.ws_row : Int) / 2 }⟩ } := by
  rcases s with ⟨⟨t0, t1⟩, a, ig, se, lf⟩
  rfl

/-- The resize handler keeps the active index, every `active` flag and the
start row of the top terminal. -/
theorem sigwinch_keeps (s : State) (ws : Option Winsize) (ok0 ok1 : Bool) :
    (sigwinch_handler s ws ok0 ok1).1.active_terminal = s.active_terminal ∧
    (∀ i, ((sigwinch_handler s ws ok0 ok1).1.terminals.get i).active =
      (s.terminals.get i).active) ∧
    ((sigwinch_handler s ws ok0 ok1).1.terminals.get 0).start_row =
      (s.terminals.get 0).start_row := by
  rcases ws with _ | ws
  · simp [sigwinch_handler]
  · rw [sigwinch_some]
    refine ⟨rfl, fun i => ?_, rfl⟩
    simp only [Terminals.get]
    split_ifs <;> rfl

theorem sigwinch_inv (s : State) (ws : Option Winsize) (ok0 ok1 : Bool) (h : Inv s) :
    Inv (sigwinch_handler s ws ok0 ok1).1 := by
  obtain ⟨e1, e2, e3⟩ := sigwinch_keeps s ws ok0 ok1
  obtain ⟨⟨ha, h1, h2⟩, h3⟩ := h
  refine ⟨⟨by rw [e1]; exact ha, by rw [e1, e2]; exact h1, by rw [e1, e2]; exact h2⟩, ?_⟩
  rw [e3]; exact h3

/-- The scan of `sigchld_handler` for one pid, as a condition on the two
child pids. -/
theorem sigchld_scan_eq (s : State) (pid : Int) :
    sigchld_scan s pid =
      if (s.terminals.get 0).child_pid = pid ∨ (s.terminals.get 1).child_pid = pid then
        ({ s with should_exit := 1 }, [Call.message "Child process terminated"])
      else (s, []) := by
  simp only [sigchld_scan, range_max]
  by_cases h0 : (s.terminals.get 0).child_pid = pid
  · simp [List.find?_cons, h0]
  · by_cases h1 : (s.terminals.get 1).child_pid = pid
    · simp [List.find?_cons, h0, h1]
    · simp [List.find?_cons, h0, h1]

/-- The child-exit handler changes nothing but `should_exit`, which it leaves
as it was or puts to 1. -/
theorem sigchld_state (waits : List Int) : ∀ s : State,
    (sigchld_handler s waits).1 = s ∨
    (sigchld_handler s waits).1 = { s with should_exit := 1 } := by
  induction waits with
  | nil => intro s; exact Or.inl rfl
  | cons pid rest ih =>
    intro s
    simp only [sigchld_handler]
    split_ifs with hp
    · rw [sigchld_scan_eq]
      split_ifs with hm
      · rcases ih { s with should_exit := 1 } with e | e
        · right; simpa using e
        · right; simpa using e
      · rcases ih s with e | e
        · left; simpa using e
        · right; simpa using e
    · exact Or.inl rfl

theorem sigchld_inv (s : State) (waits : List Int) (h : Inv s) :
    Inv (sigchld_handler s waits).1 := by
  rcases sigchld_state waits s with e | e <;> rw [e] <;> exact h

theorem step_inv (s s2 : State) (hs : Step s s2) (h : Inv s) : Inv s2 := by
  cases hs with
  | input kbd => exact handle_input_inv s kbd h
  | toggle => exact toggle_inv s h
  | resize ws ok0 ok1 => exact sigwinch_inv s ws ok0 ok1 h
  | child_exit waits => exact sigchld_inv s waits h

theorem reachable_inv (s : State) (h : Reachable s) : Inv s := by
  induction h with
  | init env s calls he => exact init_inv env s calls he
  | step s s2 _ hs ih => exact step_inv s s2 hs ih

theorem state_80x24_init :
    init_terminals env_80x24 = Except.ok (state_80x24,
      [Call.vterm_new 100 12 80, Call.vterm_screen_reset 101, Call.newwin 102 12 80 0,
       Call.forkpty 12 80, Call.set_nonblock 4,
       Call.vterm_new 200 12 80, Call.vterm_screen_reset 201, Call.newwin 202 12 80 12,
       Call.forkpty 12 80, Call.set_nonblock 5, Call.mvhline 11 80, Call.refresh]) := by
  rfl

theorem state_80x24_reachable : Reachable state_80x24 :=
  Reachable.init env_80x24 state_80x24 _ state_80x24_init

theorem viewports_after_init (env : InitEnv) (R C : Nat) :
    Viewports (state_after_init env ⟨R, C⟩) R C := by
  simp only [Viewports, state_after_init, Terminals.get]
  refine ⟨?_, ?_, ?_, ?_, ?_, ?_, fun r => ?_, fun r => ?_⟩ <;> (try simp) <;> omega

theorem viewports_after_resize (s : State) (R C : Nat) (ok0 ok1 : Bool)
    (h : (s.terminals.get 0).start_row = 0) :
    Viewports (sigwinch_handler s (some ⟨R, C⟩) ok0 ok1).1 R C := by
  rw [sigwinch_some]
  have h' : s.terminals.t0.start_row = 0 := h
  simp only [Viewports, Terminals.get]
  refine ⟨?_, ?_, ?_, ?_, ?_, ?_, fun r => ?_, fun r => ?_⟩ <;> (try simp [h']) <;> omega

theorem sigchld_exit_of_set (waits : List Int) (s : State) (h : s.should_exit = 1) :
    (sigchld_handler s waits).1.should_exit = 1 := by
  rcases sigchld_state waits s with e | e <;> rw [e]
  exact h

theorem sigchld_cons_pos (s : State) (pid : Int) (rest : List Int) (hp : pid > 0) :
    (sigchld_handler s (pid :: rest)).1 =
      if (s.terminals.get 0).child_pid = pid ∨ (s.terminals.get 1).child_pid = pid then
        (sigchld_handler { s with should_exit := 1 } rest).1
      else (sigchld_handler s rest).1 := by
  simp only [sigchld_handler, if_pos hp]
  rw [sigchld_scan_eq]
  split_ifs <;> rfl

theorem sigchld_match (waits : List Int) : ∀ s : State,
    (∃ pid ∈ waits.takeWhile (fun p => decide (p > 0)),
      pid = (s.terminals.get 0).child_pid ∨ pid = (s.terminals.get 1).child_pid) →
    (sigchld_handler s waits).1.should_exit = 1 := by
  induction waits with
  | nil => intro s h; simp at h
  | cons pid rest ih =>
    intro s h
    by_cases hp : pid > 0
    · rw [sigchld_cons_pos s pid rest hp]
      split_ifs with hm
      · exact sigchld_exit_of_set rest _ rfl
      · apply ih
        rw [List.takeWhile_cons_of_pos (by simpa using hp)] at h
        obtain ⟨q, hq, hqm⟩ := h
        rcases List.mem_cons.mp hq with e | e
        · subst e
          exact absurd (hqm.imp Eq.symm Eq.symm) hm
        · exact ⟨q, e, hqm⟩
    · rw [List.takeWhile_cons_of_neg (by simpa using hp)] at h
      simp at h

theorem sigchld_no_match (waits : List Int) : ∀ s : State,
    (∀ pid ∈ waits.takeWhile (fun p => decide (p > 0)),
      pid ≠ (s.terminals.get 0).child_pid ∧ pid ≠ (s.terminals.get 1).child_pid) →
    (sigchld_handler s waits).1 = s := by
  induction waits with
  | nil => intro s _; rfl
  | cons pid rest ih =>
    intro s h
    by_cases hp : pid > 0
    · rw [List.takeWhile_cons_of_pos (by simpa using hp)] at h
      have h0 := h pid (List.mem_cons_self _ _)
      rw [sigchld_cons_pos s pid rest hp, if_neg]
      · exact ih s (fun q hq => h q (List.mem_cons_of_mem _ hq))
      · rintro (e | e)
        · exact h0.1 e.symm
        · exact h0.2 e.symm
    · simp only [sigchld_handler, if_neg hp]

/-- A run of the main loop on an 80 by 24 terminal: `l` is typed, terminal 1
prints `x`, and the child of terminal 1 exits during the first iteration; the
loop ends after that one iteration. -/
theorem main_loop_stops_after_child_exit :
    main_loop 2 state_80x24 [108]
        [⟨⟨1, ⟨false, 0, [], false⟩, ⟨true, 1, [120], false⟩⟩, [Signal.sigchld [4001]]⟩] =
      some ({ state_80x24 with should_exit := 1 },
        [Call.write 3 [108], Call.vterm_input_write 100 [108],
         Call.vterm_input_write 200 [120], Call.usleep 10000,
         Call.message "Child process terminated"], 1) := by
  decide

/-- C6: for every physical size of `R` rows and `C` columns, the state that
`init_terminals` returns, and the state after `sigwinch_handler` has run on
any reachable state, both satisfy `rows0 = R / 2`, `rows0 + rows1 = R`,
`cols0 = cols1 = C`, `origin0 = 0`, `origin1 = rows0`, and the two row ranges
are disjoint and cover `[0, R)`. -/
theorem viewports_partition_rows (R C : Nat) :
    (∀ (env : InitEnv) (s : State) (calls : List Call), env.ws = some ⟨R, C⟩ →
      init_terminals env = Except.ok (s, calls) → Viewports s R C) ∧
    (∀ (s : State) (ok0 ok1 : Bool), Reachable s →
      Viewports (sigwinch_handler s (some ⟨R, C⟩) ok0 ok1).1 R C) := by
  constructor
  · intro env s calls hws h
    obtain ⟨ws, e1, e2⟩ := init_terminals_ok env s calls h
    rw [hws] at e1
    cases e1
    rw [e2]
    exact viewports_after_init env R C
  · intro s ok0 ok1 hr
    exact viewports_after_resize s R C ok0 ok1 (reachable_inv s hr).2

/-- C6 at 80 columns by 24 rows: start-up gives terminal 0 (12, 80) at row 0
and terminal 1 (12, 80) at row 12, and a later resize to 25 rows by 100
columns gives (12, 100) at row 0 and (13, 100) at row 12. -/
theorem viewports_partition_rows_witness :
    Viewports state_80x24 24 80 ∧
    ((state_80x24.terminals.get 0).row_count = 12 ∧ (state_80x24.terminals.get 0).col_count = 80 ∧
      (state_80x24.terminals.get 0).start_row = 0 ∧
      (state_80x24.terminals.get 1).row_count = 12 ∧ (state_80x24.terminals.get 1).col_count = 80 ∧
      (state_80x24.terminals.get 1).start_row = 12) ∧
    Viewports (sigwinch_handler state_80x24 (some ⟨25, 100⟩) true true).1 25 100 :=
  ⟨(viewports_partition_rows 24 80).1 env_80x24 state_80x24 _ rfl state_80x24_init,
   by decide,
   (viewports_partition_rows 25 100).2 state_80x24 true true state_80x24_reachable⟩

/-- C7: in every state reached from a successful `init_terminals` by any
sequence of `handle_input` calls, focus toggles, resize handlers and
child-exit handlers, `active_terminal` is 0 or 1, the terminal at that index
has its `active` flag set, and a terminal has the flag set exactly when its
index is `active_terminal`: exactly one terminal is active. -/
theorem exactly_one_active (s : State) (h : Reachable s) :
    s.active_terminal < MAX_TERMINALS ∧
    (s.terminals.get s.active_terminal).active ≠ 0 ∧
    (∀ i, i < MAX_TERMINALS → ((s.terminals.get i).active ≠ 0 ↔ i = s.active_terminal)) ∧
    (∃! i, i < MAX_TERMINALS ∧ (s.terminals.get i).active ≠ 0) := by
  obtain ⟨⟨ha, h1, h2⟩, _⟩ := reachable_inv s h
  have hiff : ∀ i, i < MAX_TERMINALS →
      ((s.terminals.get i).active ≠ 0 ↔ i = s.active_terminal) := by
    intro i hi
    simp only [MAX_TERMINALS] at ha hi
    constructor
    · intro hne
      by_contra hia
      have : i = 1 - s.active_terminal := by omega
      rw [this] at hne
      exact hne h2
    · intro e
      rw [e, h1]
      decide
  refine ⟨ha, by rw [h1]; decide, hiff, s.active_terminal, ⟨ha, by rw [h1]; decide⟩, ?_⟩
  rintro j ⟨hj, hjn⟩
  exact (hiff j hj).mp hjn

/-- C7 on the state reached from an 80 by 24 start-up by a lone reserved
byte, a resize and a child-exit notification. -/
theorem exactly_one_active_witness :
    (sigchld_handler (sigwinch_handler (handle_input state_80x24 [1]).st
        (some ⟨30, 90⟩) true true).1 [4001]).1.active_terminal < MAX_TERMINALS ∧
    ((sigchld_handler (sigwinch_handler (handle_input state_80x24 [1]).st
        (some ⟨30, 90⟩) true true).1 [4001]).1.terminals.get
      (sigchld_handler (sigwinch_handler (handle_input state_80x24 [1]).st
        (some ⟨30, 90⟩) true true).1 [4001]).1.active_terminal).active ≠ 0 ∧
    (∀ i, i < MAX_TERMINALS →
      (((sigchld_handler (sigwinch_handler (handle_input state_80x24 [1]).st
        (some ⟨30, 90⟩) true true).1 [4001]).1.terminals.get i).active ≠ 0 ↔
       i = (sigchld_handler (sigwinch_handler (handle_input state_80x24 [1]).st
        (some ⟨30, 90⟩) true true).1 [4001]).1.active_terminal)) ∧
    (∃! i, i < MAX_TERMINALS ∧
      ((sigchld_handler (sigwinch_handler (handle_input state_80x24 [1]).st
        (some ⟨30, 90⟩) true true).1 [4001]).1.terminals.get i).active ≠ 0) :=
  exactly_one_active _
    (Reachable.step _ _
      (Reachable.step _ _
        (Reachable.step _ _ state_80x24_reachable (Step.input state_80x24 [1]))
        (Step.resize _ (some ⟨30, 90⟩) true true))
      (Step.child_exit _ [4001]))

/-- C8: from every state with the active-index invariant, two calls of
`toggle_active_terminal` bring `active_terminal` and both terminals (so both
`active` flags) back to their values; one call changes no field of either
terminal except `active` (`vt`, `vts`, `child_pid`, `pty_fd`, `win`,
`row_count`, `col_count`, `start_row` all stay), and none of the calls it
makes feeds, resets or resizes an emulator. -/
theorem toggle_twice_restores (s : State) (h : ActiveInv s) :
    (toggle_active_terminal (toggle_active_terminal s).1).1.active_terminal =
      s.active_terminal ∧
    (toggle_active_terminal (toggle_active_terminal s).1).1.terminals = s.terminals ∧
    (∀ i, ((toggle_active_terminal s).1.terminals.get i).without_active =
      (s.terminals.get i).without_active) ∧
    (∀ c ∈ (toggle_active_terminal s).2, c.is_emulator_call = false) := by
  refine ⟨?_, ?_, toggle_keeps_fields s, ?_⟩
  · obtain ⟨ha, _, _⟩ := h
    simp only [toggle_active_index, MAX_TERMINALS] at ha ⊢
    omega
  · rcases s with ⟨⟨t0, t1⟩, a, ig, se, lf⟩
    obtain ⟨ha, h1, h2⟩ := h
    simp only [MAX_TERMINALS] at ha
    have ha' : a = 0 ∨ a = 1 := by omega
    rcases ha' with rfl | rfl
    · simp only [Terminals.get] at h1 h2
      simp at h1 h2
      simp [toggle_active_terminal, Terminals.get, Terminals.set, MAX_TERMINALS, ← h1, ← h2]
    · simp only [Terminals.get] at h1 h2
      simp at h1 h2
      simp [toggle_active_terminal, Terminals.get, Terminals.set, MAX_TERMINALS, ← h1, ← h2]
  · obtain ⟨w0, w1, c0, c1, x0, x1, e⟩ := toggle_calls s
    rw [e]
    intro c hc
    simp only [List.mem_cons, List.mem_singleton, List.not_mem_nil, or_false] at hc
    rcases hc with rfl | rfl | rfl | rfl <;> rfl

/-- C8 on the start-up state of an 80 by 24 terminal. -/
theorem toggle_twice_restores_witness :
    (toggle_active_terminal (toggle_active_terminal state_80x24).1).1.active_terminal = 0 ∧
    (toggle_active_terminal (toggle_active_terminal state_80x24).1).1.terminals =
      state_80x24.terminals ∧
    (∀ i, ((toggle_active_terminal state_80x24).1.terminals.get i).without_active =
      (state_80x24.terminals.get i).without_active) ∧
    (∀ c ∈ (toggle_active_terminal state_80x24).2, c.is_emulator_call = false) :=
  toggle_twice_restores state_80x24 ⟨by decide, by decide, by decide⟩

/-- C9: after `sigchld_handler` has processed the reaped ids (the positive
values `waitpid` returned before its first non-positive one), `should_exit`
is 1 when some reaped id equals the `child_pid` of terminal 0 or terminal 1,
whichever of them is active; when no reaped id matches, the state and so
`should_exit` is unchanged; and in a state with `should_exit` non-zero the
loop condition is false and the main loop returns at once, having run no
iteration and made no call. -/
theorem child_exit_requests_shutdown (s : State) (waits : List Int) :
    ((∃ pid ∈ waits.takeWhile (fun p => decide (p > 0)),
        pid = (s.terminals.get 0).child_pid ∨ pid = (s.terminals.get 1).child_pid) →
      (sigchld_handler s waits).1.should_exit = 1) ∧
    ((∀ pid ∈ waits.takeWhile (fun p => decide (p > 0)),
        pid ≠ (s.terminals.get 0).child_pid ∧ pid ≠ (s.terminals.get 1).child_pid) →
      (sigchld_handler s waits).1 = s) ∧
    (s.should_exit ≠ 0 →
      loop_condition s = false ∧
      ∀ (fuel : Nat) (kbd : List Int) (ticks : List Tick),
        main_loop (fuel + 1) s kbd ticks = some (s, [], 0)) := by
  refine ⟨sigchld_match waits s, sigchld_no_match waits s, fun hne => ?_⟩
  have hc : loop_condition s = false := by
    simp [loop_condition, hne]
  refine ⟨hc, fun fuel kbd ticks => ?_⟩
  simp [main_loop, hc]

/-- C9 on the start-up state of an 80 by 24 terminal (terminal 0 active,
child pids 4000 and 4001): the exit of the child of the inactive terminal
requests shutdown, an unrelated pid changes nothing, and the loop does not
run once the flag is set. -/
theorem child_exit_requests_shutdown_witness :
    (sigchld_handler state_80x24 [77, 4001, 0, 4000]).1.should_exit = 1 ∧
    (sigchld_handler state_80x24 [77, 0, 4000]).1 = state_80x24 ∧
    (loop_condition { state_80x24 with should_exit := 1 } = false ∧
      ∀ (fuel : Nat) (kbd : List Int) (ticks : List Tick),
        main_loop (fuel + 1) { state_80x24 with should_exit := 1 } kbd ticks =
          some ({ state_80x24 with should_exit := 1 }, [], 0)) :=
  ⟨(child_exit_requests_shutdown state_80x24 [77, 4001, 0, 4000]).1
      ⟨4001, by decide, by decide⟩,
   (child_exit_requests_shutdown state_80x24 [77, 0, 4000]).2.1 (by decide),
   (child_exit_requests_shutdown { state_80x24 with should_exit := 1 } []).2.2 (by decide)⟩

/-- C2 (the code at the failing input): with terminal 0 active, typing
`ls\n` makes `handle_input` log each byte and pass it to
`vterm_input_write` on the emulator of terminal 0; nothing is written on the
pty descriptor of terminal 0 (4) or of terminal 1 (5), and the byte `l`
arriving as pty output of terminal 0 makes `handle_output` issue the very
same emulator call. -/
theorem keyboard_bytes_fed_to_emulator :
    (handle_inputs 3 state_80x24 [108, 115, 10]).calls =
      [Call.write 3 [108], Call.vterm_input_write 100 [108],
       Call.write 3 [115], Call.vterm_input_write 100 [115],
       Call.write 3 [10], Call.vterm_input_write 100 [10]] ∧
    written_to (state_80x24.terminals.get 0).pty_fd
      (handle_inputs 3 state_80x24 [108, 115, 10]).calls = [] ∧
    written_to (state_80x24.terminals.get 1).pty_fd
      (handle_inputs 3 state_80x24 [108, 115, 10]).calls = [] ∧
    handle_output state_80x24 ⟨1, ⟨true, 1, [108], false⟩, ⟨false, 0, [], false⟩⟩ =
      [Call.vterm_input_write 100 [108]] ∧
    vterm_output_callback (state_80x24.terminals.get 0) [108] = Call.write 4 [108] := by
  decide

/-- C10: for every code point `1 ≤ c < 0x110000` the string `screen_damage`
builds for the cell has the UTF-8 length of `c` (1, 2, 3 or 4 bytes below
0x80, 0x800, 0x10000, 0x110000), consists of bytes, has the standard prefix
bits on its lead byte and on every continuation byte, and decodes by bit
layout to `c`; for every `c ≥ 0x110000` the string is the single byte `?`. -/
theorem screen_damage_utf8 (c : Nat) :
    (1 ≤ c → c < 0x110000 →
      (cell_string c).length = utf8_length c ∧
      (∀ b ∈ cell_string c, b < 256) ∧
      (∃ b0, (cell_string c).head? = some b0 ∧ lead_bits_ok (utf8_length c) b0) ∧
      (∀ b ∈ (cell_string c).tail, b / 64 = 2) ∧
      utf8_decode (cell_string c) = some c) ∧
    (0x110000 ≤ c → cell_string c = [63]) := by
  refine ⟨fun h1 h => ?_, cell_string_invalid c⟩
  by_cases a1 : c < 0x80
  · rw [cell_string_1 c h1 a1]
    have : c / 128 = 0 := by omega
    simp [utf8_length, a1, lead_bits_ok, utf8_decode, this]
    omega
  · by_cases a2 : c < 0x800
    · rw [cell_string_2 c a1 a2]
      have p0 : (192 + c / 64) / 32 = 6 := by omega
      have p1 : (128 + c % 64) / 64 = 2 := by omega
      have d : (192 + c / 64) % 32 * 64 + (128 + c % 64) % 64 = c := by omega
      simp [utf8_length, a1, a2, lead_bits_ok, utf8_decode, p0, p1, d]
      omega
    · by_cases a3 : c < 0x10000
      · rw [cell_string_3 c a2 a3]
        have p0 : (224 + c / 4096) / 16 = 14 := by omega
        have p1 : (128 + c / 64 % 64) / 64 = 2 := by omega
        have p2 : (128 + c % 64) / 64 = 2 := by omega
        have d : (224 + c / 4096) % 16 * 4096 + (128 + c / 64 % 64) % 64 * 64 +
            (128 + c % 64) % 64 = c := by omega
        simp [utf8_length, a1, a2, a3, lead_bits_ok, utf8_decode, p0, p1, p2, d]
        omega
      · rw [cell_string_4 c a3 h]
        have p0 : (240 + c / 262144) / 8 = 30 := by omega
        have p1 : (128 + c / 4096 % 64) / 64 = 2 := by omega
        have p2 : (128 + c / 64 % 64) / 64 = 2 := by omega
        have p3 : (128 + c % 64) / 64 = 2 := by omega
        have d : (240 + c / 262144) % 8 * 262144 + (128 + c / 4096 % 64) % 64 * 4096 +
            (128 + c / 64 % 64) % 64 * 64 + (128 + c % 64) % 64 = c := by omega
        simp [utf8_length, a1, a2, a3, lead_bits_ok, utf8_decode, p0, p1, p2, p3, d]
        omega

/-- C10 at the euro sign U+20AC and at the first value past Unicode. -/
theorem screen_damage_utf8_witness :
    ((cell_string 0x20AC).length = utf8_length 0x20AC ∧
      (∀ b ∈ cell_string 0x20AC, b < 256) ∧
      (∃ b0, (cell_string 0x20AC).head? = some b0 ∧ lead_bits_ok (utf8_length 0x20AC) b0) ∧
      (∀ b ∈ (cell_string 0x20AC).tail, b / 64 = 2) ∧
      utf8_decode (cell_string 0x20AC) = some 0x20AC) ∧
    cell_string 0x110000 = [63] :=
  ⟨(screen_damage_utf8 0x20AC).1 (by decide) (by decide),
   (screen_damage_utf8 0x110000).2 (by decide)⟩

end SplitTerm
